import Mathlib

/-!
Verification development for the globe-market-mind analytics backend.

The development shallowly embeds the analytics pipeline
(`app/services/analytics.py`), the persistence service
(`app/services/data_service.py`), the cleanup job
(`app/services/scheduler.py`) and the pipeline orchestration endpoint
(`app/api/process_bp.py`).  Python floats are modelled exactly: every
numeric value produced by the pipeline has the form `a + b·√c` with
rational `a`, `b`, `c` (the single square root comes from `np.std` /
`np.corrcoef`), so the embedding carries the radicand `c` explicitly and
performs comparisons, floors and roundings by exact rational arithmetic.
-/

namespace GlobeMarketMind

/-! ## Definitions: the shallow embedding of the analytics and persistence code -/

/-- A quadratic value `a + b·√c` relative to an ambient radicand `c`
(the radicand is carried separately by each call site). -/
structure QS where
  a : ℚ
  b : ℚ
  deriving DecidableEq, Repr

/-- The real number denoted by a `QS` value under radicand `c`. -/
noncomputable def valQS (c : ℚ) (x : QS) : ℝ :=
  (x.a : ℝ) + (x.b : ℝ) * Real.sqrt (c : ℝ)

/-- Fueled binary search for the integer square root of `n`.
Maintains `lo² ≤ n < hi²`; structural recursion on the fuel keeps the
function kernel-reducible. -/
def sqrtBin (n : ℕ) : ℕ → ℕ → ℕ → ℕ
  | 0, lo, _ => lo
  | fuel + 1, lo, hi =>
    let mid := (lo + hi) / 2
    if mid = lo then lo
    else if mid * mid ≤ n then sqrtBin n fuel mid hi
    else sqrtBin n fuel lo mid

/-- Integer square root (floor) of a natural number. -/
def natSqrtFloor (n : ℕ) : ℕ := sqrtBin n (n + 2) 0 (n + 1)

/-- Floor of `√q` for a rational `q` (garbage for `q < 0`, unused there). -/
def ratSqrtFloor (q : ℚ) : ℤ := (natSqrtFloor (Int.toNat ⌊q⌋) : ℤ)

/-- Ceiling of `√q` for a rational `q ≥ 0`. -/
def ratSqrtCeil (q : ℚ) : ℤ :=
  let s := ratSqrtFloor q
  if (s : ℚ) ^ 2 = q then s else s + 1

/-- Exact three-way comparison of a rational `q` with `d·√c` (requires `0 ≤ c`
for correctness). -/
def cmpSqrt (q d c : ℚ) : Ordering :=
  if 0 ≤ q then
    if 0 < d then
      if q ^ 2 < d ^ 2 * c then .lt
      else if q ^ 2 = d ^ 2 * c then .eq
      else .gt
    else
      if q = 0 ∧ (d = 0 ∨ c = 0) then .eq else .gt
  else
    if 0 ≤ d then .lt
    else
      if d ^ 2 * c < q ^ 2 then .lt
      else if d ^ 2 * c = q ^ 2 then .eq
      else .gt

/-- Floor of `a + b·√c` (correct for `0 ≤ c`). -/
def floorQS (c : ℚ) (x : QS) : ℤ :=
  let f : ℤ := if 0 ≤ x.b then ratSqrtFloor (x.b ^ 2 * c) else -ratSqrtCeil (x.b ^ 2 * c)
  let z0 : ℤ := ⌊x.a⌋ + f
  if cmpSqrt ((z0 : ℚ) + 1 - x.a) x.b c ≠ .gt then z0 + 1 else z0

/-- Round-half-to-even (Python's `round`) of `a + b·√c` to an integer. -/
def roundHEQS (c : ℚ) (x : QS) : ℤ :=
  let z := floorQS c x
  match cmpSqrt ((z : ℚ) + 1 / 2 - x.a) x.b c with
  | .gt => z
  | .lt => z + 1
  | .eq => if z % 2 = 0 then z else z + 1

/-- Python `round(x, 4)` on a quadratic value: the result is rational. -/
def round4QS (c : ℚ) (x : QS) : ℚ :=
  ((roundHEQS c ⟨x.a * 10000, x.b * 10000⟩ : ℤ) : ℚ) / 10000

/-- Python `max(-1.0, min(1.0, x))` on a quadratic value. -/
def clampQS (c : ℚ) (x : QS) : QS :=
  let m := if cmpSqrt (1 - x.a) x.b c = .lt then (⟨1, 0⟩ : QS) else x
  if cmpSqrt (-1 - m.a) m.b c = .gt then (⟨-1, 0⟩ : QS) else m

/-- Python `abs` on a quadratic value. -/
def absQS (c : ℚ) (x : QS) : QS :=
  if cmpSqrt (-x.a) x.b c = .gt then ⟨-x.a, -x.b⟩ else x

/-- `ℕ → ℚ` conversion that reduces well in the kernel. -/
def natToRat (n : ℕ) : ℚ := mkRat (Int.ofNat n) 1

/-- `ℤ → ℚ` conversion that reduces well in the kernel. -/
def intToRat (z : ℤ) : ℚ := mkRat z 1

/-- Raw market data of one market, as handed to the analytics engine
(the dict built by `YahooFinanceAdapter.fetch_market_data`; only the keys the
analytics read are modelled). -/
structure MarketData where
  close_price : ℚ
  volume : ℚ
  change_pct : ℚ
  prices_30d : List ℚ
  deriving DecidableEq, Repr

/-- `FeatureCalculator.calculate_return_today`. -/
def calculate_return_today (current_price previous_price : ℚ) : ℚ :=
  if previous_price = 0 then 0
  else (current_price - previous_price) / previous_price * 100

/-- `np.diff(prices) / prices[:-1] * 100` (`CorrelationCalculator.extract_returns`
and the identical computation inside `calculate_volatility_30d`).  A zero price
would give `inf` in numpy; the embedding's `x / 0 = 0` convention is never hit
on the inputs considered here. -/
def extract_returns (prices_30d : List ℚ) : List ℚ :=
  if prices_30d.length < 2 then []
  else List.zipWith (fun p q => (q - p) / p * 100) prices_30d prices_30d.tail

/-- `np.mean`. -/
def mean (l : List ℚ) : ℚ := l.sum / natToRat l.length

/-- Population variance: `np.std l` is `√(variance l)`. -/
def variance (l : List ℚ) : ℚ :=
  ((l.map fun r => (r - mean l) ^ 2).sum) / natToRat l.length

/-- The radicand of `FeatureCalculator.calculate_volatility_30d`: the function
returns `np.std` of the daily returns, i.e. `√` of this value (`0.0` when fewer
than two prices). -/
def calculate_volatility_30d_c (prices_30d : List ℚ) : ℚ :=
  if prices_30d.length < 2 then 0 else variance (extract_returns prices_30d)

/-- `FeatureCalculator.calculate_volume_score`.  `extract_features` always calls
it without `volumes_30d`, taking the documented price-proxy fallback. -/
def calculate_volume_score (current_volume : ℚ) (prices_30d : List ℚ)
    (volumes_30d : Option (List ℚ)) : ℚ :=
  if current_volume = 0 then 0
  else
    let fb : ℚ :=
      let avg_price := if prices_30d.isEmpty then 0 else mean prices_30d
      if avg_price = 0 then 0
      else
        let current_price := prices_30d.getLastD 0
        (current_price - avg_price) / avg_price * 100
    match volumes_30d with
    | some vs =>
      if 0 < vs.length then
        let avg_volume := mean vs
        if avg_volume = 0 then 0 else (current_volume - avg_volume) / avg_volume * 100
      else fb
    | none => fb

/-- `FeatureCalculator.z_score_normalize`, on quadratic values. -/
def z_score_normalize (value : QS) (population_mean population_std : ℚ) : QS :=
  if population_std = 0 then ⟨0, 0⟩
  else ⟨(value.a - population_mean) / population_std, value.b / population_std⟩

/-- `FeatureCalculator.extract_features` output: the six feature floats.  All
of them live in `ℚ + ℚ·√c` where `c` is the variance of the daily returns. -/
structure FeatureSet where
  c : ℚ
  return_today : QS
  volatility_30d : QS
  volume_score : QS
  return_normalized : QS
  volatility_normalized : QS
  volume_normalized : QS
  deriving DecidableEq, Repr

/-- `FeatureCalculator.extract_features`. -/
def extract_features (market_data : MarketData) : FeatureSet :=
  let prices_30d := market_data.prices_30d
  let current_price := market_data.close_price
  let current_volume := market_data.volume
  let return_today : ℚ :=
    if 1 < prices_30d.length then
      calculate_return_today current_price (prices_30d.getD (prices_30d.length - 2) 0)
    else 0
  let c := calculate_volatility_30d_c prices_30d
  let volatility_30d : QS := if prices_30d.length < 2 then ⟨0, 0⟩ else ⟨0, 1⟩
  let volume_score := calculate_volume_score current_volume prices_30d none
  { c := c
    return_today := ⟨return_today, 0⟩
    volatility_30d := volatility_30d
    volume_score := ⟨volume_score, 0⟩
    return_normalized := z_score_normalize ⟨return_today, 0⟩ 0 2
    volatility_normalized := z_score_normalize volatility_30d 2 1
    volume_normalized := z_score_normalize ⟨volume_score, 0⟩ 0 50 }

/-- The weight configuration dict (keys `return`, `volatility`, `volume`). -/
structure Weights where
  wReturn : ℚ
  wVolatility : ℚ
  wVolume : ℚ
  deriving DecidableEq, Repr

/-- `MoodEngine.DEFAULT_WEIGHTS`. -/
def DEFAULT_WEIGHTS : Weights := ⟨1/2, -3/10, 1/5⟩

/-- `MoodEngine.calculate_mood_index`: weighted sum of the three normalized
features, clamped to `[-1, 1]` and rounded to 4 decimal places. -/
def calculate_mood_index (features : FeatureSet) (weights : Option Weights) : ℚ :=
  let w := weights.getD DEFAULT_WEIGHTS
  let mood : QS :=
    ⟨w.wReturn * features.return_normalized.a +
        w.wVolatility * features.volatility_normalized.a +
        w.wVolume * features.volume_normalized.a,
      w.wReturn * features.return_normalized.b +
        w.wVolatility * features.volatility_normalized.b +
        w.wVolume * features.volume_normalized.b⟩
  round4QS features.c (clampQS features.c mood)

/-- `MoodEngine.mood_to_level`. -/
def mood_to_level (mood_index : ℚ) : String :=
  if mood_index < -1/2 then "very_bearish"
  else if mood_index < -1/10 then "bearish"
  else if mood_index < 1/10 then "neutral"
  else if mood_index < 1/2 then "bullish"
  else "very_bullish"

/-- Return value of `MoodEngine.calculate_mood`. -/
structure MoodResult where
  mood_index : ℚ
  mood_level : String
  features : FeatureSet
  deriving DecidableEq, Repr

/-- `MoodEngine.calculate_mood`. -/
def calculate_mood (market_data : MarketData) (weights : Option Weights) : MoodResult :=
  let features := extract_features market_data
  let mood_index := calculate_mood_index features weights
  { mood_index := mood_index
    mood_level := mood_to_level mood_index
    features := features }

/-- `CorrelationCalculator.CORRELATION_THRESHOLD`. -/
def CORRELATION_THRESHOLD : ℚ := 6/10

/-- `CorrelationCalculator.calculate_pearson_correlation`: Pearson coefficient
of the two (tail-aligned) return series, rounded to 4 decimals; `NaN` (a
zero-variance series) is mapped to `0.0`.  The coefficient is
`s / √(p·q) = (s/(p·q))·√(p·q)` with `s` the centered cross sum and `p`, `q`
the centered square sums, hence a quadratic value with radicand `p·q`. -/
def calculate_pearson_correlation (returns_a returns_b : List ℚ) : ℚ :=
  if returns_a.length < 2 ∨ returns_b.length < 2 then 0
  else
    let min_len := min returns_a.length returns_b.length
    let arr_a := returns_a.drop (returns_a.length - min_len)
    let arr_b := returns_b.drop (returns_b.length - min_len)
    let da := arr_a.map fun x => x - mean arr_a
    let db := arr_b.map fun x => x - mean arr_b
    let s := (List.zipWith (· * ·) da db).sum
    let p := (da.map fun x => x ^ 2).sum
    let q := (db.map fun x => x ^ 2).sum
    if p * q = 0 then 0
    else round4QS (p * q) ⟨0, s / (p * q)⟩

/-- One edge dict produced by `calculate_correlations`. -/
structure CorrEdge where
  source : String
  target : String
  weight : ℚ
  sign : String
  deriving DecidableEq, Repr

/-- The `{'edges': [...]}` dict returned by `calculate_correlations`. -/
structure CorrelationResult where
  edges : List CorrEdge
  deriving DecidableEq, Repr

/-- The index pairs `(i, j)`, `i < j`, visited by the double loop in
`calculate_correlations`, in visitation order. -/
def marketPairs : List String → List (String × String)
  | [] => []
  | x :: xs => (xs.map fun y => (x, y)) ++ marketPairs xs

/-- The body of the pair loop in `calculate_correlations`: skip a pair when
either return series is empty (`continue`), otherwise emit an edge when the
coefficient clears the threshold. -/
def corrEdgeOf (returns_map : List (String × List ℚ)) (pr : String × String) :
    Option CorrEdge :=
  let returns_a := (returns_map.lookup pr.1).getD []
  let returns_b := (returns_map.lookup pr.2).getD []
  if returns_a.isEmpty ∨ returns_b.isEmpty then none
  else
    let correlation := calculate_pearson_correlation returns_a returns_b
    if CORRELATION_THRESHOLD ≤ |correlation| then
      some { source := pr.1, target := pr.2, weight := correlation,
             sign := if 0 < correlation then "positive" else "negative" }
    else none

/-- `CorrelationCalculator.calculate_correlations`.  `markets_data` is the
Python dict in iteration (insertion) order; dict keys are unique.  The final
Python `list.sort(key=lambda x: abs(x['weight']), reverse=True)` is a stable
sort, which is exactly `List.insertionSort` with this total preorder. -/
def calculate_correlations (markets_data : List (String × MarketData)) : CorrelationResult :=
  let market_ids := markets_data.map Prod.fst
  let returns_map := markets_data.map fun p => (p.1, extract_returns p.2.prices_30d)
  let edges := (marketPairs market_ids).filterMap (corrEdgeOf returns_map)
  { edges := edges.insertionSort fun e f => |f.weight| ≤ |e.weight| }

/-- The per-market analytics dict (`calculate_market_analytics` output).  The
optional price fields are absent there and only merged in later by
`trigger_analysis` (`analytics_results['markets'][mid].update(...)`). -/
structure Analytics where
  mood_index : ℚ
  mood_level : String
  volatility_30d : ℚ
  trend_strength : ℚ
  close_price : Option ℚ := none
  volume : Option ℚ := none
  change_pct : Option ℚ := none
  deriving DecidableEq, Repr

/-- `AnalyticsEngine.calculate_market_analytics`. -/
def calculate_market_analytics (market_data : MarketData) : Analytics :=
  let mood_result := calculate_mood market_data none
  let features := mood_result.features
  let trend_strength := absQS features.c features.return_normalized
  { mood_index := mood_result.mood_index
    mood_level := mood_result.mood_level
    volatility_30d := round4QS features.c features.volatility_30d
    trend_strength := round4QS features.c trend_strength }

/-- `AnalyticsEngine.process_market_batch` output. -/
structure BatchResult where
  date : String
  markets : List (String × Option Analytics)
  correlations : CorrelationResult
  deriving DecidableEq, Repr

/-- `AnalyticsEngine.process_market_batch`, parameterized over the per-market
computation and the batch correlation computation so that the exception flow
(`try/except` per market, `try/except` around the correlations) is explicit:
a raised exception is an `Except.error`, caught and recorded as `None`
(per market) or degraded to `{'edges': []}` (batch level). -/
def processMarketBatchE (calcOne : MarketData → Except String Analytics)
    (correlate : List (String × MarketData) → Except String CorrelationResult)
    (dateStr : String) (markets_data : List (String × MarketData)) : BatchResult :=
  { date := dateStr
    markets := markets_data.map fun p => (p.1, (calcOne p.2).toOption)
    correlations :=
      match correlate markets_data with
      | .ok r => r
      | .error _ => ⟨[]⟩ }

/-- `AnalyticsEngine.process_market_batch` with the concrete computations of
the source (which are total in this embedding). -/
def process_market_batch (dateStr : String)
    (markets_data : List (String × MarketData)) : BatchResult :=
  processMarketBatchE (fun md => .ok (calculate_market_analytics md))
    (fun md => .ok (calculate_correlations md)) dateStr markets_data

/-- One `daily_state` row (timestamp bookkeeping columns are not modelled). -/
structure StateRow where
  market_id : String
  date : ℤ
  close_price : ℚ
  volume : ℚ
  change_pct : ℚ
  mood_index : ℚ
  mood_level : String
  volatility_30d : ℚ
  trend_strength : ℚ
  deriving DecidableEq, Repr

/-- One `correlation_edges` row.  The model's columns are `source_id` /
`target_id` / `correlation_value` / non-nullable `date` (plus bookkeeping). -/
structure EdgeRow where
  source_id : String
  target_id : String
  correlation_value : ℚ
  date : ℤ
  deriving DecidableEq, Repr

/-- The mapped column names of the `CorrelationEdge` model
(`app/models/market.py`). -/
def correlationEdgeColumns : List String :=
  ["id", "source_id", "target_id", "correlation_value", "date",
   "created_at", "updated_at"]

/-- Database state: the market registry (ids), the `daily_state` table and the
`correlation_edges` table, in insertion order. -/
structure Db where
  registry : List String
  states : List StateRow
  edges : List EdgeRow
  deriving DecidableEq, Repr

/-- String-valued attribute lookup on an edge row, by mapped column name. -/
def edgeStringAttr (r : EdgeRow) (name : String) : Option String :=
  if name = "source_id" then some r.source_id
  else if name = "target_id" then some r.target_id
  else none

/-- `CorrelationEdge.query.filter_by(**kw).first()`: SQLAlchemy raises
`InvalidRequestError` when a keyword is not a mapped column; otherwise the
first matching row is returned. -/
def edgeFilterBy (rows : List EdgeRow) (kw : List (String × String)) :
    Except String (Option EdgeRow) :=
  if kw.all (fun p => correlationEdgeColumns.contains p.1) then
    .ok (rows.find? fun r => kw.all fun p => edgeStringAttr r p.1 == some p.2)
  else .error "InvalidRequestError"

/-- The constructor call
`CorrelationEdge(source_market_id=s, target_market_id=t, correlation_value=v)`
in `save_correlation_edge`: the declarative constructor raises `TypeError` for
the unknown keyword arguments `source_market_id` / `target_market_id`; were
the keywords valid, the INSERT would still violate the non-nullable `date`
column, which the call never supplies.  Either way no row can be produced. -/
def correlationEdgeNew (_source_market_id _target_market_id : String)
    (_correlation_value : ℚ) : Except String EdgeRow :=
  if "source_market_id" ∈ correlationEdgeColumns ∧
      "target_market_id" ∈ correlationEdgeColumns then
    .error "IntegrityError: correlation_edges.date may not be NULL"
  else .error "TypeError: invalid keyword argument"

/-- Replace the first element satisfying `p` (the row object returned by
`.first()` is mutated in place). -/
def replaceFirst (p : α → Bool) (f : α → α) : List α → List α
  | [] => []
  | x :: xs => if p x then f x :: xs else x :: replaceFirst p f xs

/-- `DataService.save_daily_state` (the no-database-error execution; a raised
`SQLAlchemyError` would roll back and return `False`).  `today` is
`datetime.utcnow().date()`. -/
def save_daily_state (db : Db) (today : ℤ) (market_id : String)
    (analytics : Analytics) : Db × Bool :=
  if db.registry.contains market_id then
    match db.states.find? fun s => s.market_id == market_id && s.date == today with
    | some _ =>
      ({ db with
          states := replaceFirst
            (fun s => s.market_id == market_id && s.date == today)
            (fun s => { s with
              mood_index := analytics.mood_index
              mood_level := analytics.mood_level
              volatility_30d := analytics.volatility_30d
              trend_strength := analytics.trend_strength })
            db.states },
        true)
    | none =>
      ({ db with
          states := db.states ++
            [{ market_id := market_id
               date := today
               close_price := analytics.close_price.getD 0
               volume := analytics.volume.getD 0
               change_pct := analytics.change_pct.getD 0
               mood_index := analytics.mood_index
               mood_level := analytics.mood_level
               volatility_30d := analytics.volatility_30d
               trend_strength := analytics.trend_strength }] },
        true)
  else (db, false)

/-- `DataService.save_correlation_edge`.  The query and the constructor use
the attribute names `source_market_id` / `target_market_id`, which the
`CorrelationEdge` model does not define; the raised exception is caught,
the session rolled back and `False` returned. -/
def save_correlation_edge (db : Db) (source target : String)
    (correlation_value : ℚ) : Db × Bool :=
  let st := if target < source then (target, source) else (source, target)
  match edgeFilterBy db.edges
      [("source_market_id", st.1), ("target_market_id", st.2)] with
  | .error _ => (db, false)
  | .ok (some _) =>
    ({ db with
        edges := replaceFirst
          (fun r =>
            [("source_market_id", st.1), ("target_market_id", st.2)].all fun p =>
              edgeStringAttr r p.1 == some p.2)
          (fun r => { r with correlation_value := correlation_value })
          db.edges },
      true)
  | .ok none =>
    match correlationEdgeNew st.1 st.2 correlation_value with
    | .error _ => (db, false)
    | .ok row => ({ db with edges := db.edges ++ [row] }, true)

/-- The report dict built by `DataService.save_batch_analytics`.  The
`saved_correlations` / `failed_correlations` detail entries are kept as the
`(source, target)` pairs that the source renders into display strings. -/
structure SaveReport where
  status : String
  markets_saved : ℕ
  markets_failed : ℕ
  correlations_saved : ℕ
  correlations_failed : ℕ
  saved_markets : List String
  failed_markets : List String
  saved_correlations : List (String × String)
  failed_correlations : List (String × String)
  deriving DecidableEq, Repr

/-- The initial report value in `save_batch_analytics`. -/
def initialSaveReport : SaveReport :=
  { status := "success"
    markets_saved := 0, markets_failed := 0
    correlations_saved := 0, correlations_failed := 0
    saved_markets := [], failed_markets := []
    saved_correlations := [], failed_correlations := [] }

/-- The market loop of `save_batch_analytics` (`None` analytics are skipped). -/
def saveMarketsLoop (today : ℤ) (markets : List (String × Option Analytics))
    (acc : Db × SaveReport) : Db × SaveReport :=
  markets.foldl
    (fun acc p =>
      match p.2 with
      | none => acc
      | some a =>
        let (db', ok) := save_daily_state acc.1 today p.1 a
        if ok then
          (db', { acc.2 with
            markets_saved := acc.2.markets_saved + 1
            saved_markets := acc.2.saved_markets ++ [p.1] })
        else
          (db', { acc.2 with
            markets_failed := acc.2.markets_failed + 1
            failed_markets := acc.2.failed_markets ++ [p.1] }))
    acc

/-- The correlation loop of `save_batch_analytics`. -/
def saveCorrelationsLoop (edges : List CorrEdge) (acc : Db × SaveReport) :
    Db × SaveReport :=
  edges.foldl
    (fun acc e =>
      let (db', ok) := save_correlation_edge acc.1 e.source e.target e.weight
      if ok then
        (db', { acc.2 with
          correlations_saved := acc.2.correlations_saved + 1
          saved_correlations := acc.2.saved_correlations ++ [(e.source, e.target)] })
      else
        (db', { acc.2 with
          correlations_failed := acc.2.correlations_failed + 1
          failed_correlations := acc.2.failed_correlations ++ [(e.source, e.target)] }))
    acc

/-- `DataService.save_batch_analytics`: saves each non-`None` market analytics
and each correlation edge, then derives the overall status (`'partial'` when
any item failed, overridden by `'failed'` when nothing at all was saved). -/
def save_batch_analytics (db : Db) (today : ℤ) (analytics_results : BatchResult) :
    Db × SaveReport :=
  let acc1 := saveMarketsLoop today analytics_results.markets (db, initialSaveReport)
  let acc2 := saveCorrelationsLoop analytics_results.correlations.edges acc1
  let r := acc2.2
  let status1 := if 0 < r.markets_failed ∨ 0 < r.correlations_failed then "partial" else r.status
  let status2 := if r.markets_saved = 0 ∧ r.correlations_saved = 0 then "failed" else status1
  (acc2.1, { r with status := status2 })

/-- `cleanup_old_data` (triggered with `days_to_keep` by the manual endpoint
and the weekly job): deletes the `daily_state` rows whose `date` lies strictly
before `utcnow().date() - timedelta(days=days_to_keep)`; the
`correlation_edges` table is not touched. -/
def cleanup_old_data (db : Db) (today : ℤ) (days_to_keep : ℤ) : Db :=
  let cutoff_date := today - days_to_keep
  { db with states := db.states.filter fun s => !(s.date < cutoff_date) }

/-- The result dict of `YahooFinanceAdapter.fetch_multiple_markets`: the fetch
stage's outcome, treated as an input of the pipeline (the adapter does network
input and random fallback generation).  `data` is the snapshot dict in
insertion order; the adapter appends to `success` and `data` together. -/
structure AdapterResults where
  success : List String
  failed : List String
  data : List (String × MarketData)
  deriving DecidableEq, Repr

/-- The `data_fetch` sub-report of the `/api/process/analyze` response. -/
structure FetchStatus where
  markets_fetched : ℕ
  markets_failed : ℕ
  success : List String
  failed : List String
  deriving DecidableEq, Repr

/-- The `analytics` sub-report of the `/api/process/analyze` response. -/
structure AnalyticsStatus where
  markets_analyzed : ℕ
  correlations_found : ℕ
  deriving DecidableEq, Repr

/-- The JSON response of `trigger_analysis` (the persistence sub-dict carries
the counts and status of the `SaveReport`). -/
structure PipelineResponse where
  status : String
  http : ℕ
  data_fetch : Option FetchStatus
  analytics : Option AnalyticsStatus
  persistence : Option SaveReport
  deriving DecidableEq, Repr

/-- The merge loop of `trigger_analysis`: for every market id of the analytics
result that is a key of the adapter data, the original `close_price`,
`volume` and `change_pct` are written into its analytics dict.  When the
market's analytics is `None` (a per-market computation failure), the
`None.update(...)` call raises `AttributeError`, which the endpoint's outer
`except` turns into an error response. -/
def mergeMarkets (data : List (String × MarketData)) :
    List (String × Option Analytics) → Except String (List (String × Option Analytics))
  | [] => .ok []
  | (market_id, oa) :: rest =>
    match data.lookup market_id with
    | none => do
      let r ← mergeMarkets data rest
      .ok ((market_id, oa) :: r)
    | some original_data =>
      match oa with
      | none => .error "AttributeError"
      | some a => do
        let r ← mergeMarkets data rest
        .ok ((market_id, some { a with
          close_price := some original_data.close_price
          volume := some original_data.volume
          change_pct := some original_data.change_pct }) :: r)

/-- `trigger_analysis` (`POST /api/process/analyze`), as a function of the
database, the run date (`today` for persistence, `dateStr` the stamp from
`process_market_batch`) and the fetch stage's outcome.  Returns the response
and the resulting database. -/
def trigger_analysis (db : Db) (today : ℤ) (dateStr : String)
    (adapter_results : AdapterResults) : PipelineResponse × Db :=
  let fetch_status : FetchStatus :=
    { markets_fetched := adapter_results.success.length
      markets_failed := adapter_results.failed.length
      success := adapter_results.success
      failed := adapter_results.failed }
  if adapter_results.data.isEmpty then
    ({ status := "failed", http := 500, data_fetch := some fetch_status
       analytics := none, persistence := none }, db)
  else
    let analytics_results := process_market_batch dateStr adapter_results.data
    match mergeMarkets adapter_results.data analytics_results.markets with
    | .error _ =>
      ({ status := "error", http := 500, data_fetch := none
         analytics := none, persistence := none }, db)
    | .ok merged =>
      let merged_results : BatchResult := { analytics_results with markets := merged }
      let markets_analyzed := (merged.filter fun p => p.2.isSome).length
      let correlations_found := merged_results.correlations.edges.length
      let analytics_status : AnalyticsStatus :=
        { markets_analyzed := markets_analyzed
          correlations_found := correlations_found }
      let (db', persistence_results) := save_batch_analytics db today merged_results
      let overall_status :=
        if persistence_results.status ≠ "success" then persistence_results.status
        else "success"
      ({ status := overall_status
         http := if overall_status = "success" then 200 else 207
         data_fetch := some fetch_status
         analytics := some analytics_status
         persistence := some persistence_results }, db')

/-- Three-price series shared by the concrete correlation batches: its two
daily returns (100% and 50%) are non-constant, so every pair of markets with
this series has Pearson coefficient exactly 1. -/
def mdP3 : MarketData := ⟨3, 1, 0, [1, 2, 3]⟩

/-- An unordered-pair clash between two edges. -/
def sameUnorderedPair (e f : CorrEdge) : Prop :=
  (e.source = f.source ∧ e.target = f.target) ∨
    (e.source = f.target ∧ e.target = f.source)

/-- A `daily_state` row written on day 5. -/
def stateRowToday : StateRow := ⟨"US_SPX", 5, 100, 1000, 0, 1/2, "bullish", 1, 1/2⟩

/-- A database holding one state row dated today (day 5) and one edge row. -/
def dbCleanup : Db := ⟨["US_SPX"], [stateRowToday], [⟨"EU_STOXX", "US_SPX", 7/10, 3⟩]⟩

/-- A one-market registry with empty tables, for the C9 witness. -/
def dbUpsert : Db := ⟨["US_SPX"], [], []⟩

/-- First analytics dict for the C9 witness. -/
def aUpsert : Analytics := ⟨1/2, "bullish", 1, 1/4, some 100, some 1000, some 1⟩

/-- Updated analytics dict (new mood) for the C9 witness. -/
def aUpsert' : Analytics := ⟨-3/4, "very_bearish", 2, 1/8, some 100, some 1000, some 1⟩

/-- A per-market computation that raises on markets without price history
(a concrete `ComputationFailure` for the C10 witness). -/
def calcFailEmpty : MarketData → Except String Analytics := fun md =>
  if md.prices_30d.isEmpty then .error "ValueError" else .ok (calculate_market_analytics md)

/-- A correlation computation that raises (for the C10 witness). -/
def correlateFail : List (String × MarketData) → Except String CorrelationResult :=
  fun _ => .error "LinAlgError"

/-- A market snapshot with no price history. -/
def mdEmpty : MarketData := ⟨1, 1, 0, []⟩

/-- Two-market batch for the C10 witness: one healthy, one failing. -/
def batchIso : List (String × MarketData) := [("GOOD", mdP3), ("BAD", mdEmpty)]

/-- A database with three registered markets and empty tables. -/
def dbPipeline : Db := ⟨["AAA", "BBB", "CCC"], [], []⟩

/-- A snapshot with prices `[100, 101, 100]` (non-degenerate returns). -/
def mdGrow : MarketData := ⟨100, 1000, -99/101, [100, 101, 100]⟩

/-- A snapshot with constant prices (zero-variance returns, so no edge). -/
def mdFlat : MarketData := ⟨50, 2000, 0, [50, 50, 50]⟩

/-- Fetch outcome with 1 of 3 markets failed and two clean snapshots. -/
def arPipeline : AdapterResults :=
  ⟨["AAA", "BBB"], ["CCC"], [("AAA", mdGrow), ("BBB", mdFlat)]⟩

/-! ## Theorems -/

theorem sqrtBin_succ (n fuel lo hi : ℕ) :
    sqrtBin n (fuel + 1) lo hi =
      if (lo + hi) / 2 = lo then lo
      else if (lo + hi) / 2 * ((lo + hi) / 2) ≤ n then sqrtBin n fuel ((lo + hi) / 2) hi
      else sqrtBin n fuel lo ((lo + hi) / 2) := rfl

theorem sqrtBin_spec (n : ℕ) :
    ∀ fuel lo hi, lo < hi → hi ≤ lo + fuel → lo * lo ≤ n → n < hi * hi →
      sqrtBin n fuel lo hi * sqrtBin n fuel lo hi ≤ n ∧
        n < (sqrtBin n fuel lo hi + 1) * (sqrtBin n fuel lo hi + 1) := by
  intro fuel
  induction fuel with
  | zero => intro lo hi h1 h2 _ _; omega
  | succ fuel ih =>
    intro lo hi h1 h2 h3 h4
    rw [sqrtBin_succ]
    by_cases hm : (lo + hi) / 2 = lo
    · have hhi : hi = lo + 1 := by omega
      rw [if_pos hm]
      subst hhi
      exact ⟨h3, h4⟩
    · have hlo : lo < (lo + hi) / 2 := by omega
      have hhi : (lo + hi) / 2 < hi := by omega
      rw [if_neg hm]
      by_cases hle : (lo + hi) / 2 * ((lo + hi) / 2) ≤ n
      · rw [if_pos hle]
        exact ih _ _ hhi (by omega) hle h4
      · rw [if_neg hle]
        exact ih _ _ hlo (by omega) h3 (by omega)

theorem natSqrtFloor_spec (n : ℕ) :
    natSqrtFloor n * natSqrtFloor n ≤ n ∧
      n < (natSqrtFloor n + 1) * (natSqrtFloor n + 1) := by
  have h : n < (n + 1) * (n + 1) := by nlinarith
  exact sqrtBin_spec n (n + 2) 0 (n + 1) (by omega) (by omega) (by omega) h

theorem ratSqrtFloor_nonneg (q : ℚ) : 0 ≤ ratSqrtFloor q := Int.ofNat_nonneg _

theorem ratSqrtFloor_sq_le {q : ℚ} (hq : 0 ≤ q) : ((ratSqrtFloor q : ℚ)) ^ 2 ≤ q := by
  have hfl : (0 : ℤ) ≤ ⌊q⌋ := Int.floor_nonneg.2 hq
  have h1 := (natSqrtFloor_spec (Int.toNat ⌊q⌋)).1
  have h2 : ((natSqrtFloor (Int.toNat ⌊q⌋) : ℤ) : ℚ) ^ 2 ≤ ((Int.toNat ⌊q⌋ : ℤ) : ℚ) := by
    rw [sq]
    push_cast
    exact_mod_cast h1
  rw [Int.toNat_of_nonneg hfl] at h2
  calc ((ratSqrtFloor q : ℚ)) ^ 2 ≤ (⌊q⌋ : ℚ) := h2
    _ ≤ q := Int.floor_le q

theorem lt_ratSqrtFloor_succ_sq {q : ℚ} (hq : 0 ≤ q) :
    q < ((ratSqrtFloor q : ℚ) + 1) ^ 2 := by
  have hfl : (0 : ℤ) ≤ ⌊q⌋ := Int.floor_nonneg.2 hq
  have h1 := (natSqrtFloor_spec (Int.toNat ⌊q⌋)).2
  have h2 : ((Int.toNat ⌊q⌋ : ℤ) : ℚ) + 1 ≤ ((ratSqrtFloor q : ℚ) + 1) ^ 2 := by
    unfold ratSqrtFloor
    rw [sq]
    have : (Int.toNat ⌊q⌋ : ℚ) + 1 ≤
        (((natSqrtFloor (Int.toNat ⌊q⌋) + 1) * (natSqrtFloor (Int.toNat ⌊q⌋) + 1) : ℕ) : ℚ) := by
      exact_mod_cast h1
    push_cast at this ⊢
    linarith
  rw [Int.toNat_of_nonneg hfl] at h2
  calc q < (⌊q⌋ : ℚ) + 1 := Int.lt_floor_add_one q
    _ ≤ ((ratSqrtFloor q : ℚ) + 1) ^ 2 := h2

theorem ratSqrtFloor_le_sqrt {q : ℚ} (hq : 0 ≤ q) :
    ((ratSqrtFloor q : ℤ) : ℝ) ≤ Real.sqrt (q : ℝ) := by
  have h0 : (0 : ℚ) ≤ (ratSqrtFloor q : ℚ) := by exact_mod_cast ratSqrtFloor_nonneg q
  rw [Real.le_sqrt (by exact_mod_cast h0) (by exact_mod_cast hq)]
  have := ratSqrtFloor_sq_le hq
  exact_mod_cast this

theorem sqrt_lt_ratSqrtFloor_succ {q : ℚ} (hq : 0 ≤ q) :
    Real.sqrt (q : ℝ) < ((ratSqrtFloor q : ℤ) : ℝ) + 1 := by
  have h0 : (0 : ℚ) ≤ (ratSqrtFloor q : ℚ) := by exact_mod_cast ratSqrtFloor_nonneg q
  have hpos : (0 : ℝ) < ((ratSqrtFloor q : ℤ) : ℝ) + 1 := by
    have : (0 : ℝ) ≤ ((ratSqrtFloor q : ℤ) : ℝ) := by exact_mod_cast h0
    linarith
  rw [Real.sqrt_lt' hpos]
  have := lt_ratSqrtFloor_succ_sq hq
  exact_mod_cast this

theorem sqrt_le_ratSqrtCeil {q : ℚ} (hq : 0 ≤ q) :
    Real.sqrt (q : ℝ) ≤ ((ratSqrtCeil q : ℤ) : ℝ) := by
  unfold ratSqrtCeil
  by_cases h : ((ratSqrtFloor q : ℚ)) ^ 2 = q
  · simp only [if_pos h]
    have h0 : (0 : ℝ) ≤ ((ratSqrtFloor q : ℤ) : ℝ) := by
      exact_mod_cast ratSqrtFloor_nonneg q
    have : Real.sqrt (q : ℝ) = ((ratSqrtFloor q : ℤ) : ℝ) := by
      rw [show ((q : ℝ)) = (((ratSqrtFloor q : ℤ) : ℝ)) ^ 2 by exact_mod_cast h.symm]
      exact Real.sqrt_sq h0
    linarith
  · simp only [if_neg h]
    have := sqrt_lt_ratSqrtFloor_succ hq
    push_cast
    linarith

theorem ratSqrtCeil_sub_one_lt_sqrt {q : ℚ} (hq : 0 ≤ q) :
    ((ratSqrtCeil q : ℤ) : ℝ) - 1 < Real.sqrt (q : ℝ) := by
  unfold ratSqrtCeil
  by_cases h : ((ratSqrtFloor q : ℚ)) ^ 2 = q
  · simp only [if_pos h]
    have h0 : (0 : ℝ) ≤ ((ratSqrtFloor q : ℤ) : ℝ) := by
      exact_mod_cast ratSqrtFloor_nonneg q
    have : Real.sqrt (q : ℝ) = ((ratSqrtFloor q : ℤ) : ℝ) := by
      rw [show ((q : ℝ)) = (((ratSqrtFloor q : ℤ) : ℝ)) ^ 2 by exact_mod_cast h.symm]
      exact Real.sqrt_sq h0
    linarith
  · simp only [if_neg h]
    have hle := ratSqrtFloor_le_sqrt hq
    have hne : ((ratSqrtFloor q : ℤ) : ℝ) ≠ Real.sqrt (q : ℝ) := by
      intro heq
      apply h
      have hsq : ((ratSqrtFloor q : ℤ) : ℝ) ^ 2 = (q : ℝ) := by
        rw [heq]; exact Real.sq_sqrt (by exact_mod_cast hq)
      exact_mod_cast hsq
    have : ((ratSqrtFloor q : ℤ) : ℝ) < Real.sqrt (q : ℝ) := lt_of_le_of_ne hle hne
    push_cast at this ⊢
    linarith

theorem cmpSqrt_correct {c : ℚ} (hc : 0 ≤ c) (q d : ℚ) :
    (cmpSqrt q d c = .lt ↔ (q : ℝ) < d * Real.sqrt c) ∧
      (cmpSqrt q d c = .eq ↔ (q : ℝ) = d * Real.sqrt c) ∧
      (cmpSqrt q d c = .gt ↔ (q : ℝ) > d * Real.sqrt c) := by
  set s : ℝ := Real.sqrt (c : ℝ) with hs
  have hs0 : 0 ≤ s := Real.sqrt_nonneg _
  have hs2 : s ^ 2 = (c : ℝ) := Real.sq_sqrt (by exact_mod_cast hc)
  have key : ((q : ℝ) < d * s ∨ (q : ℝ) = d * s ∨ (q : ℝ) > d * s) := lt_trichotomy _ _
  -- establish for each branch the corresponding real comparison
  have main : (cmpSqrt q d c = .lt ∧ (q : ℝ) < d * s) ∨
      (cmpSqrt q d c = .eq ∧ (q : ℝ) = d * s) ∨
      (cmpSqrt q d c = .gt ∧ (q : ℝ) > d * s) := by
    unfold cmpSqrt
    by_cases h1 : (0 : ℚ) ≤ q
    · by_cases h2 : (0 : ℚ) < d
      · have hds : (0 : ℝ) ≤ (d : ℝ) * s := by
          have : (0 : ℝ) ≤ (d : ℝ) := by exact_mod_cast le_of_lt h2
          positivity
        have hq0 : (0 : ℝ) ≤ (q : ℝ) := by exact_mod_cast h1
        have hsq : ((d : ℝ) * s) ^ 2 = (d : ℝ) ^ 2 * (c : ℝ) := by
          rw [mul_pow, hs2]
        by_cases h3 : q ^ 2 < d ^ 2 * c
        · left
          refine ⟨by simp [h1, h2, h3], ?_⟩
          have h3' : (q : ℝ) ^ 2 < ((d : ℝ) * s) ^ 2 := by
            rw [hsq]; exact_mod_cast h3
          nlinarith
        · by_cases h4 : q ^ 2 = d ^ 2 * c
          · right; left
            refine ⟨by simp [h1, h2, h3, h4], ?_⟩
            have h4' : (q : ℝ) ^ 2 = ((d : ℝ) * s) ^ 2 := by
              rw [hsq]; exact_mod_cast h4
            nlinarith
          · right; right
            refine ⟨by simp [h1, h2, h3, h4], ?_⟩
            have h3' : ((d : ℝ) * s) ^ 2 ≤ (q : ℝ) ^ 2 := by
              rw [hsq]; exact_mod_cast (not_lt.mp h3)
            have hne : ((d : ℝ) * s) ^ 2 ≠ (q : ℝ) ^ 2 := by
              rw [hsq]
              intro hcon
              exact h4 (by exact_mod_cast hcon.symm)
            have : ((d : ℝ) * s) ^ 2 < (q : ℝ) ^ 2 := lt_of_le_of_ne h3' hne
            nlinarith
      · -- 0 ≤ q, d ≤ 0 : d·√c ≤ 0 ≤ q
        have hd0 : (d : ℝ) ≤ 0 := by exact_mod_cast (not_lt.mp h2)
        have hds : (d : ℝ) * s ≤ 0 := mul_nonpos_of_nonpos_of_nonneg hd0 hs0
        have hq0 : (0 : ℝ) ≤ (q : ℝ) := by exact_mod_cast h1
        by_cases h3 : q = 0 ∧ (d = 0 ∨ c = 0)
        · right; left
          refine ⟨by simp [h1, h2, h3], ?_⟩
          obtain ⟨hq, hd⟩ := h3
          subst hq
          rcases hd with hd | hcz
          · subst hd; simp
          · subst hcz; simp [hs, Real.sqrt_zero]
        · right; right
          refine ⟨by simp [h1, h2, h3], ?_⟩
          rcases lt_or_eq_of_le hds with hlt | heq
          · exact lt_of_lt_of_le hlt hq0
          · -- d·√c = 0 : q must be nonzero, else h3 would hold
            rcases lt_or_eq_of_le hq0 with hqpos | hqz
            · linarith
            · exfalso
              apply h3
              constructor
              · exact_mod_cast hqz.symm
              · rcases mul_eq_zero.mp heq with hd | hsz
                · left; exact_mod_cast hd
                · right
                  have : (c : ℝ) ≤ 0 := Real.sqrt_eq_zero'.mp hsz
                  have : (c : ℝ) = 0 := le_antisymm this (by exact_mod_cast hc)
                  exact_mod_cast this
    · -- q < 0
      have hq0 : (q : ℝ) < 0 := by exact_mod_cast (not_le.mp h1)
      by_cases h2 : (0 : ℚ) ≤ d
      · left
        refine ⟨by simp [h1, h2], ?_⟩
        have : (0 : ℝ) ≤ (d : ℝ) * s := by
          have : (0 : ℝ) ≤ (d : ℝ) := by exact_mod_cast h2
          positivity
        linarith
      · -- q < 0, d < 0 : compare via squares, inverted
        have hd0 : (d : ℝ) < 0 := by exact_mod_cast (not_le.mp h2)
        have hds : (d : ℝ) * s ≤ 0 := mul_nonpos_of_nonpos_of_nonneg (le_of_lt hd0) hs0
        have hsq : ((d : ℝ) * s) ^ 2 = (d : ℝ) ^ 2 * (c : ℝ) := by
          rw [mul_pow, hs2]
        by_cases h3 : d ^ 2 * c < q ^ 2
        · left
          refine ⟨by simp [h1, h2, h3], ?_⟩
          have h3' : ((d : ℝ) * s) ^ 2 < (q : ℝ) ^ 2 := by
            rw [hsq]; exact_mod_cast h3
          nlinarith
        · by_cases h4 : d ^ 2 * c = q ^ 2
          · right; left
            refine ⟨by simp [h1, h2, h3, h4], ?_⟩
            have h4' : ((d : ℝ) * s) ^ 2 = (q : ℝ) ^ 2 := by
              rw [hsq]; exact_mod_cast h4
            nlinarith
          · right; right
            refine ⟨by simp [h1, h2, h3, h4], ?_⟩
            have h3' : (q : ℝ) ^ 2 ≤ ((d : ℝ) * s) ^ 2 := by
              rw [hsq]; exact_mod_cast (not_lt.mp h3)
            have hne : (q : ℝ) ^ 2 ≠ ((d : ℝ) * s) ^ 2 := by
              rw [hsq]
              intro hcon
              exact h4 (by exact_mod_cast hcon.symm)
            have : (q : ℝ) ^ 2 < ((d : ℝ) * s) ^ 2 := lt_of_le_of_ne h3' hne
            nlinarith
  rcases main with ⟨he, hr⟩ | ⟨he, hr⟩ | ⟨he, hr⟩
  · refine ⟨iff_of_true he hr, iff_of_false ?_ ?_, iff_of_false ?_ ?_⟩
    · rw [he]; simp
    · intro hcon; linarith
    · rw [he]; simp
    · intro hcon; linarith
  · refine ⟨iff_of_false ?_ ?_, iff_of_true he hr, iff_of_false ?_ ?_⟩
    · rw [he]; simp
    · intro hcon; linarith
    · rw [he]; simp
    · intro hcon; linarith
  · refine ⟨iff_of_false ?_ ?_, iff_of_false ?_ ?_, iff_of_true he hr⟩
    · rw [he]; simp
    · intro hcon; linarith
    · rw [he]; simp
    · intro hcon; linarith

theorem cmpSqrt_lt_iff {c : ℚ} (hc : 0 ≤ c) {q d : ℚ} :
    cmpSqrt q d c = .lt ↔ (q : ℝ) < d * Real.sqrt c := (cmpSqrt_correct hc q d).1

theorem cmpSqrt_eq_iff {c : ℚ} (hc : 0 ≤ c) {q d : ℚ} :
    cmpSqrt q d c = .eq ↔ (q : ℝ) = d * Real.sqrt c := (cmpSqrt_correct hc q d).2.1

theorem cmpSqrt_gt_iff {c : ℚ} (hc : 0 ≤ c) {q d : ℚ} :
    cmpSqrt q d c = .gt ↔ (q : ℝ) > d * Real.sqrt c := (cmpSqrt_correct hc q d).2.2

theorem cmpSqrt_ne_gt_iff {c : ℚ} (hc : 0 ≤ c) {q d : ℚ} :
    cmpSqrt q d c ≠ .gt ↔ (q : ℝ) ≤ d * Real.sqrt c := by
  constructor
  · intro h
    cases hcmp : cmpSqrt q d c with
    | lt => exact le_of_lt ((cmpSqrt_lt_iff hc).mp hcmp)
    | eq => exact le_of_eq ((cmpSqrt_eq_iff hc).mp hcmp)
    | gt => exact absurd hcmp h
  · intro h hcon
    have := (cmpSqrt_gt_iff hc).mp hcon
    linarith

theorem floorQS_spec {c : ℚ} (hc : 0 ≤ c) (x : QS) :
    ((floorQS c x : ℤ) : ℝ) ≤ valQS c x ∧ valQS c x < ((floorQS c x : ℤ) : ℝ) + 1 := by
  have hbc : (0 : ℚ) ≤ x.b ^ 2 * c := mul_nonneg (sq_nonneg _) hc
  have hsqrt : Real.sqrt ((x.b ^ 2 * c : ℚ) : ℝ) = |(x.b : ℝ)| * Real.sqrt (c : ℝ) := by
    push_cast
    rw [Real.sqrt_mul (sq_nonneg _), Real.sqrt_sq_eq_abs]
  set f : ℤ := if 0 ≤ x.b then ratSqrtFloor (x.b ^ 2 * c) else -ratSqrtCeil (x.b ^ 2 * c) with hf
  have hfspec : ((f : ℤ) : ℝ) ≤ (x.b : ℝ) * Real.sqrt (c : ℝ) ∧
      (x.b : ℝ) * Real.sqrt (c : ℝ) < ((f : ℤ) : ℝ) + 1 := by
    by_cases hb : (0 : ℚ) ≤ x.b
    · have habs : |(x.b : ℝ)| = (x.b : ℝ) := abs_of_nonneg (by exact_mod_cast hb)
      have h1 := ratSqrtFloor_le_sqrt hbc
      have h2 := sqrt_lt_ratSqrtFloor_succ hbc
      rw [hsqrt, habs] at h1 h2
      rw [hf, if_pos hb]
      exact ⟨h1, h2⟩
    · have hb' : (x.b : ℝ) < 0 := by exact_mod_cast not_le.mp hb
      have habs : |(x.b : ℝ)| = -(x.b : ℝ) := abs_of_neg hb'
      have h1 := sqrt_le_ratSqrtCeil hbc
      have h2 := ratSqrtCeil_sub_one_lt_sqrt hbc
      rw [hsqrt, habs] at h1 h2
      rw [hf, if_neg hb]
      push_cast
      constructor <;> linarith
  set z0 : ℤ := ⌊x.a⌋ + f with hz0
  have hz0R : ((z0 : ℤ) : ℝ) = ((⌊x.a⌋ : ℤ) : ℝ) + ((f : ℤ) : ℝ) := by
    rw [hz0]; push_cast; ring
  have hlow : ((z0 : ℤ) : ℝ) ≤ valQS c x := by
    have h1 : ((⌊x.a⌋ : ℤ) : ℝ) ≤ (x.a : ℝ) := by exact_mod_cast Int.floor_le x.a
    unfold valQS
    have := hfspec.1
    linarith
  have hhigh : valQS c x < ((z0 : ℤ) : ℝ) + 2 := by
    have h1 : (x.a : ℝ) < ((⌊x.a⌋ : ℤ) : ℝ) + 1 := by exact_mod_cast Int.lt_floor_add_one x.a
    unfold valQS
    have := hfspec.2
    linarith
  have hvaleq : valQS c x = (x.a : ℝ) + (x.b : ℝ) * Real.sqrt (c : ℝ) := rfl
  have hres : floorQS c x =
      if cmpSqrt ((z0 : ℚ) + 1 - x.a) x.b c ≠ .gt then z0 + 1 else z0 := rfl
  rw [hres]
  by_cases hcond : cmpSqrt ((z0 : ℚ) + 1 - x.a) x.b c ≠ .gt
  · rw [if_pos hcond]
    have hle : (((z0 : ℚ) + 1 - x.a : ℚ) : ℝ) ≤ (x.b : ℝ) * Real.sqrt (c : ℝ) :=
      (cmpSqrt_ne_gt_iff hc).mp hcond
    push_cast at hle
    constructor
    · rw [hvaleq]
      push_cast
      linarith
    · have hcast : ((z0 + 1 : ℤ) : ℝ) + 1 = ((z0 : ℤ) : ℝ) + 2 := by push_cast; ring
      rw [hcast]
      exact hhigh
  · rw [if_neg hcond]
    have hgt : (((z0 : ℚ) + 1 - x.a : ℚ) : ℝ) > (x.b : ℝ) * Real.sqrt (c : ℝ) := by
      have h := not_not.mp (fun hcon => hcond hcon)
      exact (cmpSqrt_gt_iff hc).mp h
    push_cast at hgt
    refine ⟨hlow, ?_⟩
    rw [hvaleq]
    linarith

theorem roundHEQS_bounds {c : ℚ} (hc : 0 ≤ c) (x : QS) (m : ℤ)
    (hlow : (-(m : ℝ)) ≤ valQS c x) (hhigh : valQS c x ≤ (m : ℝ)) :
    -m ≤ roundHEQS c x ∧ roundHEQS c x ≤ m := by
  obtain ⟨hfl, hfh⟩ := floorQS_spec hc x
  set z : ℤ := floorQS c x with hz
  have hzlow : -m ≤ z := by
    have : (-(m : ℝ)) < ((z : ℤ) : ℝ) + 1 := lt_of_le_of_lt hlow hfh
    have : -m < z + 1 := by exact_mod_cast this
    omega
  have hzhigh : z ≤ m := by
    have : ((z : ℤ) : ℝ) ≤ (m : ℝ) := le_trans hfl hhigh
    exact_mod_cast this
  have hsucc : ((((z : ℚ) + 1 / 2 - x.a : ℚ) : ℝ) ≤ (x.b : ℝ) * Real.sqrt (c : ℝ)) →
      z + 1 ≤ m := by
    intro hmid
    have hval : ((z : ℝ)) + 1 / 2 ≤ valQS c x := by
      unfold valQS
      push_cast at hmid ⊢
      linarith
    have : ((z : ℝ)) + 1 / 2 ≤ (m : ℝ) := le_trans hval hhigh
    have : ((z : ℝ)) < (m : ℝ) := by linarith
    have : z < m := by exact_mod_cast this
    omega
  have hred : ∀ o, cmpSqrt ((z : ℚ) + 1 / 2 - x.a) x.b c = o →
      roundHEQS c x = (match o with
        | Ordering.gt => z
        | Ordering.lt => z + 1
        | Ordering.eq => if z % 2 = 0 then z else z + 1) := by
    intro o ho
    show (match cmpSqrt ((z : ℚ) + 1 / 2 - x.a) x.b c with
      | Ordering.gt => z
      | Ordering.lt => z + 1
      | Ordering.eq => if z % 2 = 0 then z else z + 1) = _
    rw [ho]
  cases hcmp : cmpSqrt ((z : ℚ) + 1 / 2 - x.a) x.b c with
  | lt =>
    rw [hred _ hcmp]
    have := le_of_lt ((cmpSqrt_lt_iff hc).mp hcmp)
    show -m ≤ z + 1 ∧ z + 1 ≤ m
    exact ⟨by omega, hsucc this⟩
  | eq =>
    rw [hred _ hcmp]
    have := le_of_eq ((cmpSqrt_eq_iff hc).mp hcmp)
    have h1 := hsucc this
    show -m ≤ (if z % 2 = 0 then z else z + 1) ∧ (if z % 2 = 0 then z else z + 1) ≤ m
    by_cases hpar : z % 2 = 0
    · simp only [if_pos hpar]; exact ⟨hzlow, hzhigh⟩
    · simp only [if_neg hpar]; exact ⟨by omega, h1⟩
  | gt =>
    rw [hred _ hcmp]
    show -m ≤ z ∧ z ≤ m
    exact ⟨hzlow, hzhigh⟩

theorem clampQS_val_bounds {c : ℚ} (hc : 0 ≤ c) (x : QS) :
    (-1 : ℝ) ≤ valQS c (clampQS c x) ∧ valQS c (clampQS c x) ≤ 1 := by
  unfold clampQS
  set m : QS := if cmpSqrt (1 - x.a) x.b c = .lt then (⟨1, 0⟩ : QS) else x with hm
  have hmle : valQS c m ≤ 1 := by
    by_cases h : cmpSqrt (1 - x.a) x.b c = .lt
    · rw [hm, if_pos h]
      unfold valQS
      simp
    · rw [hm, if_neg h]
      have htri := cmpSqrt_correct hc (1 - x.a) x.b
      cases hcmp : cmpSqrt (1 - x.a) x.b c with
      | lt => exact absurd hcmp h
      | eq =>
        have := (cmpSqrt_eq_iff hc).mp hcmp
        unfold valQS
        push_cast at this ⊢
        linarith
      | gt =>
        have := (cmpSqrt_gt_iff hc).mp hcmp
        unfold valQS
        push_cast at this ⊢
        linarith
  by_cases h2 : cmpSqrt (-1 - m.a) m.b c = .gt
  · rw [if_pos h2]
    unfold valQS
    norm_num
  · rw [if_neg h2]
    constructor
    · cases hcmp : cmpSqrt (-1 - m.a) m.b c with
      | gt => exact absurd hcmp h2
      | lt =>
        have := (cmpSqrt_lt_iff hc).mp hcmp
        unfold valQS
        push_cast at this ⊢
        linarith
      | eq =>
        have := (cmpSqrt_eq_iff hc).mp hcmp
        unfold valQS
        push_cast at this ⊢
        linarith
    · exact hmle

theorem round4QS_clamp_bounds {c : ℚ} (hc : 0 ≤ c) (x : QS) :
    (-1 : ℚ) ≤ round4QS c (clampQS c x) ∧ round4QS c (clampQS c x) ≤ 1 := by
  obtain ⟨h1, h2⟩ := clampQS_val_bounds hc x
  set y : QS := clampQS c x with hy
  have hval : valQS c (⟨y.a * 10000, y.b * 10000⟩ : QS) = 10000 * valQS c y := by
    unfold valQS
    push_cast
    ring
  have hb := roundHEQS_bounds hc (⟨y.a * 10000, y.b * 10000⟩ : QS) 10000
    (by rw [hval]; push_cast; linarith)
    (by rw [hval]; push_cast; linarith)
  unfold round4QS
  constructor
  · rw [le_div_iff₀ (show (0 : ℚ) < 10000 by norm_num)]
    have hcast : ((-10000 : ℤ) : ℚ) ≤ ((roundHEQS c ⟨y.a * 10000, y.b * 10000⟩ : ℤ) : ℚ) := by
      exact_mod_cast hb.1
    push_cast at hcast
    linarith
  · rw [div_le_iff₀ (show (0 : ℚ) < 10000 by norm_num)]
    have hcast : ((roundHEQS c ⟨y.a * 10000, y.b * 10000⟩ : ℤ) : ℚ) ≤ ((10000 : ℤ) : ℚ) := by
      exact_mod_cast hb.2
    push_cast at hcast
    linarith

theorem natToRat_eq (n : ℕ) : natToRat n = (n : ℚ) := by
  unfold natToRat
  rw [Rat.mkRat_one]
  rfl

theorem intToRat_eq (z : ℤ) : intToRat z = (z : ℚ) := Rat.mkRat_one z

theorem mem_marketPairs : ∀ {l : List String} {p : String × String},
    p ∈ marketPairs l → p.1 ∈ l ∧ p.2 ∈ l := by
  intro l
  induction l with
  | nil => intro p h; simp [marketPairs] at h
  | cons x xs ih =>
    intro p h
    rw [marketPairs, List.mem_append] at h
    rcases h with h | h
    · rcases List.mem_map.mp h with ⟨y, hy, rfl⟩
      exact ⟨List.mem_cons_self _ _, List.mem_cons_of_mem _ hy⟩
    · obtain ⟨h1, h2⟩ := ih h
      exact ⟨List.mem_cons_of_mem _ h1, List.mem_cons_of_mem _ h2⟩

theorem marketPairs_pairwise_ne : ∀ {l : List String}, l.Nodup →
    (marketPairs l).Pairwise fun p q =>
      ¬((p.1 = q.1 ∧ p.2 = q.2) ∨ (p.1 = q.2 ∧ p.2 = q.1)) := by
  intro l
  induction l with
  | nil => intro _; simp [marketPairs]
  | cons x xs ih =>
    intro hnd
    rw [List.nodup_cons] at hnd
    obtain ⟨hx, hnd⟩ := hnd
    rw [marketPairs, List.pairwise_append]
    refine ⟨?_, ih hnd, ?_⟩
    · rw [List.pairwise_map]
      refine List.Pairwise.imp_of_mem ?_ hnd
      intro u v hu hv hne
      simp only
      rintro (⟨-, h2⟩ | ⟨h1, -⟩)
      · exact hne h2
      · exact hx (h1 ▸ hv)
    · intro a ha b hb
      rcases List.mem_map.mp ha with ⟨y, hy, rfl⟩
      obtain ⟨hb1, hb2⟩ := mem_marketPairs hb
      simp only
      rintro (⟨h1, -⟩ | ⟨h1, -⟩)
      · exact hx (h1 ▸ hb1)
      · exact hx (h1 ▸ hb2)

theorem marketPairs_lt : ∀ {l : List String}, l.Pairwise (· < ·) →
    ∀ p ∈ marketPairs l, p.1 < p.2 := by
  intro l
  induction l with
  | nil => intro _ p h; simp [marketPairs] at h
  | cons x xs ih =>
    intro hs p hp
    rw [List.pairwise_cons] at hs
    obtain ⟨hx, hs⟩ := hs
    rw [marketPairs, List.mem_append] at hp
    rcases hp with hp | hp
    · rcases List.mem_map.mp hp with ⟨y, hy, rfl⟩
      exact hx y hy
    · exact ih hs p hp

theorem corrEdgeOf_fields {rm : List (String × List ℚ)} {pr : String × String}
    {e : CorrEdge} (h : corrEdgeOf rm pr = some e) :
    e.source = pr.1 ∧ e.target = pr.2 := by
  unfold corrEdgeOf at h
  dsimp only at h
  split_ifs at h <;> injection h with h <;> subst h <;> exact ⟨rfl, rfl⟩

theorem calculate_correlations_edges_perm (markets_data : List (String × MarketData)) :
    List.Perm (calculate_correlations markets_data).edges
      ((marketPairs (markets_data.map Prod.fst)).filterMap
        (corrEdgeOf (markets_data.map fun p => (p.1, extract_returns p.2.prices_30d)))) :=
  List.perm_insertionSort _ _

/-- C6: the edge sequence of `calculate_correlations` is non-increasing in
`|weight|` (the tie-break clause of the claim fails, see the counterexample:
ties stay in pair-generation order, which follows dict insertion order). -/
theorem edges_sorted_by_abs_weight (markets_data : List (String × MarketData)) :
    ((calculate_correlations markets_data).edges).Pairwise
      fun e f => |f.weight| ≤ |e.weight| := by
  unfold calculate_correlations
  simp only
  letI : IsTotal CorrEdge (fun e f => |f.weight| ≤ |e.weight|) := ⟨fun _ _ => le_total _ _⟩
  letI : IsTrans CorrEdge (fun e f => |f.weight| ≤ |e.weight|) :=
    ⟨fun _ _ _ h1 h2 => le_trans h2 h1⟩
  exact List.sorted_insertionSort _ _

/-- C6 counterexample: three markets with identical price series, keyed in
insertion order `B, C, A`.  All three edges have `|weight| = 1`, yet the
output order `(B,C), (B,A), (C,A)` is not lexicographic on the id pairs
(`(B,C)` precedes `(B,A)` although `(B,C) > (B,A)` lexicographically), so
equal-`|weight|` edges do not appear in canonical pair order. -/
theorem edges_tie_order_counterexample :
    (calculate_correlations [("B", mdP3), ("C", mdP3), ("A", mdP3)]).edges =
      [⟨"B", "C", 1, "positive"⟩, ⟨"B", "A", 1, "positive"⟩,
        ⟨"C", "A", 1, "positive"⟩] ∧
    ¬("B" < "B" ∨ ("B" = "B" ∧ ("C" : String) ≤ "A")) := by
  constructor
  · with_unfolding_all rfl
  · with_unfolding_all decide

/-- C3 (amended): for a batch with distinct market ids, no unordered pair of
ids appears twice among the edges; and when the batch's key order is
lexicographically sorted, every edge satisfies `source < target`.  (The
unconditional `source < target` of the claim fails — edges follow dict
insertion order; see the counterexample.) -/
theorem edges_canonical_pairs (markets_data : List (String × MarketData))
    (hnd : (markets_data.map Prod.fst).Nodup) :
    ((calculate_correlations markets_data).edges).Pairwise
      (fun e f => ¬ sameUnorderedPair e f) ∧
    ((markets_data.map Prod.fst).Pairwise (· < ·) →
      ∀ e ∈ (calculate_correlations markets_data).edges, e.source < e.target) := by
  have hperm := calculate_correlations_edges_perm markets_data
  constructor
  · refine (hperm.pairwise_iff ?_).mpr ?_
    · intro x y h hcon
      unfold sameUnorderedPair at h hcon
      tauto
    · refine List.pairwise_filterMap.mpr ?_
      refine (marketPairs_pairwise_ne hnd).imp ?_
      intro a a' hne b hb b' hb'
      have h1 := corrEdgeOf_fields (Option.mem_def.mp hb)
      have h2 := corrEdgeOf_fields (Option.mem_def.mp hb')
      unfold sameUnorderedPair
      rw [h1.1, h1.2, h2.1, h2.2]
      exact hne
  · intro hsorted e he
    have heraw := hperm.mem_iff.mp he
    obtain ⟨pr, hpr, hsome⟩ := List.mem_filterMap.mp heraw
    obtain ⟨h1, h2⟩ := corrEdgeOf_fields hsome
    rw [h1, h2]
    exact marketPairs_lt hsorted pr hpr

/-- C3 witness: the amended theorem applied to a concrete sorted two-market
batch. -/
theorem edges_canonical_pairs_witness :
    ((calculate_correlations [("A", mdP3), ("B", mdP3)]).edges).Pairwise
      (fun e f => ¬ sameUnorderedPair e f) ∧
    (∀ e ∈ (calculate_correlations [("A", mdP3), ("B", mdP3)]).edges,
      e.source < e.target) := by
  have h := edges_canonical_pairs [("A", mdP3), ("B", mdP3)] (by with_unfolding_all decide)
  exact ⟨h.1, h.2 (by with_unfolding_all decide)⟩

/-- C3 counterexample: with the same series under keys inserted as `B, A`,
the single edge is emitted as `(source, target) = ("B", "A")`, violating
`source < target` lexicographically. -/
theorem edges_canonical_pairs_counterexample :
    (calculate_correlations [("B", mdP3), ("A", mdP3)]).edges =
      [⟨"B", "A", 1, "positive"⟩] ∧ ¬("B" < "A") := by
  constructor
  · with_unfolding_all rfl
  · with_unfolding_all decide

/-- C8: `mood_to_level` is a total, non-overlapping partition of the mood
index domain, with the documented left-closed boundaries: `(-∞,-0.5)` →
very_bearish, `[-0.5,-0.1)` → bearish, `[-0.1,0.1)` → neutral, `[0.1,0.5)` →
bullish, `[0.5,∞)` → very_bullish; in particular `-0.5 ↦ bearish`,
`-0.1 ↦ neutral`, `0.1 ↦ bullish` and `0.5 ↦ very_bullish`. -/
theorem mood_to_level_partition (x : ℚ) :
    (mood_to_level x = "very_bearish" ↔ x < -1/2) ∧
    (mood_to_level x = "bearish" ↔ -1/2 ≤ x ∧ x < -1/10) ∧
    (mood_to_level x = "neutral" ↔ -1/10 ≤ x ∧ x < 1/10) ∧
    (mood_to_level x = "bullish" ↔ 1/10 ≤ x ∧ x < 1/2) ∧
    (mood_to_level x = "very_bullish" ↔ 1/2 ≤ x) := by
  unfold mood_to_level
  split_ifs with h1 h2 h3 h4 <;>
    refine ⟨?_, ?_, ?_, ?_, ?_⟩ <;> simp <;>
      first
        | linarith
        | (intro h; linarith)
        | (constructor <;> linarith)

/-- C7: for every feature set (arbitrary quadratic magnitudes over a
nonnegative radicand) and every weight configuration, the mood index is the
weighted sum of the three normalized features clamped to `[-1, 1]` and
rounded to 4 decimals, and it lies in `[-1, 1]`. -/
theorem calculate_mood_index_bounds (features : FeatureSet) (w : Weights)
    (hc : 0 ≤ features.c) :
    -1 ≤ calculate_mood_index features (some w) ∧
      calculate_mood_index features (some w) ≤ 1 ∧
      calculate_mood_index features (some w) =
        round4QS features.c (clampQS features.c
          ⟨w.wReturn * features.return_normalized.a +
              w.wVolatility * features.volatility_normalized.a +
              w.wVolume * features.volume_normalized.a,
            w.wReturn * features.return_normalized.b +
              w.wVolatility * features.volatility_normalized.b +
              w.wVolume * features.volume_normalized.b⟩) := by
  have h := round4QS_clamp_bounds hc
    (⟨w.wReturn * features.return_normalized.a +
        w.wVolatility * features.volatility_normalized.a +
        w.wVolume * features.volume_normalized.a,
      w.wReturn * features.return_normalized.b +
        w.wVolatility * features.volatility_normalized.b +
        w.wVolume * features.volume_normalized.b⟩ : QS)
  exact ⟨h.1, h.2, rfl⟩

/-- C7 witness: the bound theorem applied at a concrete feature set with
radicand 2 (an irrational volatility) and the default weight values. -/
theorem calculate_mood_index_bounds_witness :
    -1 ≤ calculate_mood_index
        ⟨2, ⟨1, 0⟩, ⟨0, 1⟩, ⟨3, 0⟩, ⟨1/2, 0⟩, ⟨-2, 1⟩, ⟨3/50, 0⟩⟩
        (some ⟨1/2, -3/10, 1/5⟩) ∧
      calculate_mood_index
        ⟨2, ⟨1, 0⟩, ⟨0, 1⟩, ⟨3, 0⟩, ⟨1/2, 0⟩, ⟨-2, 1⟩, ⟨3/50, 0⟩⟩
        (some ⟨1/2, -3/10, 1/5⟩) ≤ 1 :=
  ⟨(calculate_mood_index_bounds
      ⟨2, ⟨1, 0⟩, ⟨0, 1⟩, ⟨3, 0⟩, ⟨1/2, 0⟩, ⟨-2, 1⟩, ⟨3/50, 0⟩⟩
      ⟨1/2, -3/10, 1/5⟩ (by norm_num)).1,
    (calculate_mood_index_bounds
      ⟨2, ⟨1, 0⟩, ⟨0, 1⟩, ⟨3, 0⟩, ⟨1/2, 0⟩, ⟨-2, 1⟩, ⟨3/50, 0⟩⟩
      ⟨1/2, -3/10, 1/5⟩ (by norm_num)).2.1⟩

theorem edgeFilterBy_bad_attr (rows : List EdgeRow) (s t : String) :
    edgeFilterBy rows [("source_market_id", s), ("target_market_id", t)] =
      .error "InvalidRequestError" := by
  unfold edgeFilterBy
  simp [correlationEdgeColumns]

theorem save_correlation_edge_eq (db : Db) (source target : String) (v : ℚ) :
    save_correlation_edge db source target v = (db, false) := by
  unfold save_correlation_edge
  dsimp only
  rw [edgeFilterBy_bad_attr]

theorem saveMarketsLoop_preserves :
    ∀ (markets : List (String × Option Analytics)) (today : ℤ) (acc : Db × SaveReport),
    (saveMarketsLoop today markets acc).2.correlations_saved = acc.2.correlations_saved ∧
    (saveMarketsLoop today markets acc).2.correlations_failed = acc.2.correlations_failed ∧
    (saveMarketsLoop today markets acc).2.status = acc.2.status := by
  intro markets
  induction markets with
  | nil => intro today acc; exact ⟨rfl, rfl, rfl⟩
  | cons p ps ih =>
    intro today acc
    rcases p with ⟨market_id, oa⟩
    cases oa with
    | none => exact ih today acc
    | some a =>
      rcases hsd : save_daily_state acc.1 today market_id a with ⟨db', ok⟩
      have hstep : saveMarketsLoop today ((market_id, some a) :: ps) acc =
          saveMarketsLoop today ps
            (if ok then
              (db', { acc.2 with
                markets_saved := acc.2.markets_saved + 1
                saved_markets := acc.2.saved_markets ++ [market_id] })
            else
              (db', { acc.2 with
                markets_failed := acc.2.markets_failed + 1
                failed_markets := acc.2.failed_markets ++ [market_id] })) := by
        unfold saveMarketsLoop
        rw [List.foldl_cons]
        simp only [hsd]
      rw [hstep]
      cases ok
      · exact ih today _
      · exact ih today _

theorem saveCorrelationsLoop_spec :
    ∀ (edges : List CorrEdge) (acc : Db × SaveReport),
    saveCorrelationsLoop edges acc =
      (acc.1, { acc.2 with
        correlations_failed := acc.2.correlations_failed + edges.length
        failed_correlations := acc.2.failed_correlations ++
          edges.map fun e => (e.source, e.target) }) := by
  intro edges
  induction edges with
  | nil => intro acc; simp [saveCorrelationsLoop]
  | cons e es ih =>
    intro acc
    have hstep : saveCorrelationsLoop (e :: es) acc =
        saveCorrelationsLoop es
          (acc.1, { acc.2 with
            correlations_failed := acc.2.correlations_failed + 1
            failed_correlations := acc.2.failed_correlations ++ [(e.source, e.target)] }) := by
      unfold saveCorrelationsLoop
      rw [List.foldl_cons]
      simp [save_correlation_edge_eq]
    rw [hstep, ih]
    simp [Nat.add_comm, Nat.add_assoc, Nat.add_left_comm]

theorem save_batch_analytics_status (db : Db) (today : ℤ) (res : BatchResult) :
    (save_batch_analytics db today res).2.status =
      (if (save_batch_analytics db today res).2.markets_saved = 0 ∧
          (save_batch_analytics db today res).2.correlations_saved = 0 then "failed"
        else if 0 < (save_batch_analytics db today res).2.markets_failed ∨
            0 < (save_batch_analytics db today res).2.correlations_failed then "partial"
        else "success") := by
  have hm := (saveMarketsLoop_preserves res.markets today (db, initialSaveReport)).2.2
  have hc := saveCorrelationsLoop_spec res.correlations.edges
    (saveMarketsLoop today res.markets (db, initialSaveReport))
  unfold save_batch_analytics
  dsimp only
  rw [hc]
  dsimp only
  rw [hm]
  rfl

/-- C2: `save_correlation_edge` returns `False` and leaves the database
unchanged on every input — its `filter_by` query names the attributes
`source_market_id` / `target_market_id`, which are not columns of the
`CorrelationEdge` model, so `InvalidRequestError` is raised and caught —
and consequently `save_batch_analytics` always reports
`correlations_saved = 0` and counts every edge of the batch as failed. -/
theorem save_correlation_edge_always_fails :
    (∀ (db : Db) (source target : String) (v : ℚ),
      save_correlation_edge db source target v = (db, false)) ∧
    ∀ (db : Db) (today : ℤ) (res : BatchResult),
      (save_batch_analytics db today res).2.correlations_saved = 0 ∧
      (save_batch_analytics db today res).2.correlations_failed =
        res.correlations.edges.length := by
  refine ⟨save_correlation_edge_eq, ?_⟩
  intro db today res
  have hm := saveMarketsLoop_preserves res.markets today (db, initialSaveReport)
  have hc := saveCorrelationsLoop_spec res.correlations.edges
    (saveMarketsLoop today res.markets (db, initialSaveReport))
  constructor
  · show (save_batch_analytics db today res).2.correlations_saved = 0
    unfold save_batch_analytics
    dsimp only
    rw [hc]
    dsimp only
    exact hm.1.trans rfl
  · show (save_batch_analytics db today res).2.correlations_failed =
      res.correlations.edges.length
    unfold save_batch_analytics
    dsimp only
    rw [hc]
    dsimp only
    rw [hm.2.1]
    simp [initialSaveReport]

/-- C4 (amended): `trigger_cleanup(days_to_keep=0)` deletes exactly the daily
state rows dated strictly before the current day — a row dated today
survives — and leaves the correlation edges (and the registry) unchanged. -/
theorem cleanup_old_data_zero_days (db : Db) (today : ℤ) :
    (cleanup_old_data db today 0).states =
      db.states.filter (fun s => !(s.date < today)) ∧
    (cleanup_old_data db today 0).edges = db.edges ∧
    (cleanup_old_data db today 0).registry = db.registry := by
  unfold cleanup_old_data
  refine ⟨?_, rfl, rfl⟩
  simp

/-- C4 counterexample: with `days_to_keep = 0` the cutoff is today itself, so
a state row dated today is not deleted — the database is unchanged and its
state table stays nonempty, contradicting "deletes all daily state rows". -/
theorem cleanup_old_data_zero_days_counterexample :
    cleanup_old_data dbCleanup 5 0 = dbCleanup ∧ dbCleanup.states ≠ [] := by
  constructor
  · with_unfolding_all rfl
  · with_unfolding_all decide

theorem replaceFirst_append_of_no_match {p : α → Bool} {f : α → α} :
    ∀ {l₁ : List α} (l₂ : List α), (∀ x ∈ l₁, ¬ p x = true) →
      replaceFirst p f (l₁ ++ l₂) = l₁ ++ replaceFirst p f l₂ := by
  intro l₁
  induction l₁ with
  | nil => intro l₂ _; rfl
  | cons x xs ih =>
    intro l₂ h
    have hx : ¬ p x = true := h x (List.mem_cons_self _ _)
    show (if p x then f x :: (xs ++ l₂) else x :: replaceFirst p f (xs ++ l₂)) =
      x :: (xs ++ replaceFirst p f l₂)
    rw [if_neg hx, ih l₂ fun y hy => h y (List.mem_cons_of_mem _ hy)]

/-- C9: for a registered market with no existing row for `(market_id, today)`,
`save_daily_state` inserts exactly one row; a second call with the same
analytics succeeds, leaves the database unchanged and still exactly one row
for the key; a third call with updated analytics succeeds, still leaves
exactly one row for the key, and that row's `mood_index` is the updated
value (overwrite, not duplicate). -/
theorem save_daily_state_upsert (db : Db) (today : ℤ) (mid : String)
    (a a' : Analytics) (hreg : db.registry.contains mid = true)
    (h0 : db.states.countP (fun s => s.market_id == mid && s.date == today) = 0) :
    ((save_daily_state db today mid a).2 = true) ∧
    ((save_daily_state (save_daily_state db today mid a).1 today mid a).2 = true) ∧
    ((save_daily_state (save_daily_state (save_daily_state db today mid a).1 today mid a).1
        today mid a').2 = true) ∧
    ((save_daily_state db today mid a).1.states.countP
        (fun s => s.market_id == mid && s.date == today) = 1) ∧
    ((save_daily_state (save_daily_state db today mid a).1 today mid a).1 =
      (save_daily_state db today mid a).1) ∧
    (∃ r, ((save_daily_state (save_daily_state (save_daily_state db today mid a).1
          today mid a).1 today mid a').1.states.countP
            (fun s => s.market_id == mid && s.date == today) = 1) ∧
      ((save_daily_state (save_daily_state (save_daily_state db today mid a).1
          today mid a).1 today mid a').1.states.find?
            (fun s => s.market_id == mid && s.date == today) = some r) ∧
      r.mood_index = a'.mood_index) := by
  set p : StateRow → Bool := fun s => s.market_id == mid && s.date == today with hp
  have hnm : ∀ x ∈ db.states, ¬ p x = true := List.countP_eq_zero.mp h0
  have hfind0 : db.states.find? p = none := List.find?_eq_none.mpr hnm
  set rowA : StateRow :=
    { market_id := mid, date := today
      close_price := a.close_price.getD 0
      volume := a.volume.getD 0
      change_pct := a.change_pct.getD 0
      mood_index := a.mood_index
      mood_level := a.mood_level
      volatility_30d := a.volatility_30d
      trend_strength := a.trend_strength } with hrowA
  have hmatch : p rowA = true := by simp [hp, hrowA]
  have h1 : save_daily_state db today mid a =
      ({ db with states := db.states ++ [rowA] }, true) := by
    unfold save_daily_state
    rw [hreg]
    simp only [if_pos rfl]
    rw [← hp, hfind0]
    rfl
  have hfind1 : (db.states ++ [rowA]).find? p = some rowA := by
    rw [List.find?_append, hfind0, List.find?_cons_of_pos _ hmatch]
    rfl
  have hrep : ∀ (b : Analytics),
      replaceFirst p (fun s => { s with
        mood_index := b.mood_index, mood_level := b.mood_level
        volatility_30d := b.volatility_30d, trend_strength := b.trend_strength })
        (db.states ++ [rowA]) =
      db.states ++ [{ rowA with
        mood_index := b.mood_index, mood_level := b.mood_level
        volatility_30d := b.volatility_30d, trend_strength := b.trend_strength }] := by
    intro b
    rw [replaceFirst_append_of_no_match _ hnm]
    show db.states ++
        (if p rowA then _ :: ([] : List StateRow) else rowA :: replaceFirst p _ []) = _
    rw [if_pos hmatch]
  have h2 : save_daily_state ({ db with states := db.states ++ [rowA] }) today mid a =
      ({ db with states := db.states ++ [rowA] }, true) := by
    unfold save_daily_state
    dsimp only
    rw [hreg]
    simp only [if_pos rfl]
    rw [← hp, hfind1]
    dsimp only
    rw [hrep a]
    rfl
  have h3 : save_daily_state ({ db with states := db.states ++ [rowA] }) today mid a' =
      ({ db with states := db.states ++ [{ rowA with
          mood_index := a'.mood_index, mood_level := a'.mood_level
          volatility_30d := a'.volatility_30d, trend_strength := a'.trend_strength }] },
        true) := by
    unfold save_daily_state
    dsimp only
    rw [hreg]
    simp only [if_pos rfl]
    rw [← hp, hfind1]
    dsimp only
    rw [hrep a']
    rfl
  have hmatch' : p { rowA with
      mood_index := a'.mood_index, mood_level := a'.mood_level
      volatility_30d := a'.volatility_30d, trend_strength := a'.trend_strength } = true := by
    simp [hp, hrowA]
  have hcount1 : (db.states ++ [rowA]).countP p = 1 := by
    rw [List.countP_append, h0]
    simp [hmatch]
  refine ⟨by rw [h1], by rw [h1, h2], by rw [h1, h2, h3], by rw [h1]; exact hcount1,
    by rw [h1, h2], ?_⟩
  refine ⟨{ rowA with
      mood_index := a'.mood_index, mood_level := a'.mood_level
      volatility_30d := a'.volatility_30d, trend_strength := a'.trend_strength }, ?_, ?_, rfl⟩
  · rw [h1, h2, h3]
    dsimp only
    rw [List.countP_append, h0]
    simp [hmatch']
  · rw [h1, h2, h3]
    dsimp only
    rw [List.find?_append, hfind0, List.find?_cons_of_pos _ hmatch']
    rfl

/-- C9 witness: the upsert theorem applied at a concrete database. -/
theorem save_daily_state_upsert_witness :
    (save_daily_state dbUpsert 7 "US_SPX" aUpsert).2 = true ∧
    (save_daily_state dbUpsert 7 "US_SPX" aUpsert).1.states.countP
      (fun s => s.market_id == "US_SPX" && s.date == 7) = 1 ∧
    (save_daily_state (save_daily_state dbUpsert 7 "US_SPX" aUpsert).1
        7 "US_SPX" aUpsert).1 =
      (save_daily_state dbUpsert 7 "US_SPX" aUpsert).1 := by
  have h := save_daily_state_upsert dbUpsert 7 "US_SPX" aUpsert aUpsert'
    (by with_unfolding_all decide) (by with_unfolding_all decide)
  exact ⟨h.1, h.2.2.2.1, h.2.2.2.2.1⟩

/-- C10: in `process_market_batch`, every market of the batch appears in the
result; a market whose computation raises is recorded as `None` while every
other market is still processed (the ok markets appear with their analytics);
and when the batch-level correlation computation raises, the result degrades
to an empty edge list. -/
theorem process_market_batch_isolation
    (calcOne : MarketData → Except String Analytics)
    (correlate : List (String × MarketData) → Except String CorrelationResult)
    (dateStr : String) (markets_data : List (String × MarketData)) :
    ((processMarketBatchE calcOne correlate dateStr markets_data).markets.map Prod.fst =
      markets_data.map Prod.fst) ∧
    (∀ market_id md, (market_id, md) ∈ markets_data →
      ∀ err, calcOne md = .error err →
        (market_id, (none : Option Analytics)) ∈
          (processMarketBatchE calcOne correlate dateStr markets_data).markets) ∧
    (∀ market_id md, (market_id, md) ∈ markets_data →
      ∀ a, calcOne md = .ok a →
        (market_id, some a) ∈
          (processMarketBatchE calcOne correlate dateStr markets_data).markets) ∧
    (∀ err, correlate markets_data = .error err →
      (processMarketBatchE calcOne correlate dateStr markets_data).correlations.edges = []) := by
  refine ⟨?_, ?_, ?_, ?_⟩
  · unfold processMarketBatchE
    rw [List.map_map]
    rfl
  · intro market_id md hmem err herr
    have : (market_id, (calcOne md).toOption) ∈
        (processMarketBatchE calcOne correlate dateStr markets_data).markets :=
      List.mem_map_of_mem _ hmem
    rwa [herr] at this
  · intro market_id md hmem a hok
    have : (market_id, (calcOne md).toOption) ∈
        (processMarketBatchE calcOne correlate dateStr markets_data).markets :=
      List.mem_map_of_mem _ hmem
    rwa [hok] at this
  · intro err herr
    unfold processMarketBatchE
    dsimp only
    rw [herr]

/-- C10 witness: the isolation theorem applied to a batch where one market's
computation raises and the correlation computation raises. -/
theorem process_market_batch_isolation_witness :
    (("BAD", (none : Option Analytics)) ∈
      (processMarketBatchE calcFailEmpty correlateFail "2026-01-18" batchIso).markets) ∧
    (("GOOD", some (calculate_market_analytics mdP3)) ∈
      (processMarketBatchE calcFailEmpty correlateFail "2026-01-18" batchIso).markets) ∧
    (processMarketBatchE calcFailEmpty correlateFail
      "2026-01-18" batchIso).correlations.edges = [] := by
  have h := process_market_batch_isolation calcFailEmpty correlateFail "2026-01-18" batchIso
  exact ⟨h.2.1 "BAD" mdEmpty (by with_unfolding_all decide) "ValueError"
      (by with_unfolding_all rfl),
    h.2.2.1 "GOOD" mdP3 (by with_unfolding_all decide) _ (by with_unfolding_all rfl),
    h.2.2.2 "LinAlgError" rfl⟩

/-- C5: when the fetch stage yields no data, `trigger_analysis` returns the
overall status `'failed'` (HTTP 500) with the analyze and persist stages
never invoked (`analytics`/`persistence` absent, database untouched). -/
theorem trigger_analysis_no_data (db : Db) (today : ℤ) (dateStr : String)
    (ar : AdapterResults) (hdata : ar.data = []) :
    (trigger_analysis db today dateStr ar).1.status = "failed" ∧
    (trigger_analysis db today dateStr ar).1.analytics = none ∧
    (trigger_analysis db today dateStr ar).1.persistence = none ∧
    (trigger_analysis db today dateStr ar).2 = db ∧
    (trigger_analysis db today dateStr ar).1.http = 500 := by
  unfold trigger_analysis
  rw [hdata]
  exact ⟨rfl, rfl, rfl, rfl, rfl⟩

/-- C5 witness: a fetch outcome where every configured market failed. -/
theorem trigger_analysis_no_data_witness :
    (trigger_analysis dbPipeline 0 "2026-01-18"
      ⟨[], ["AAA", "BBB", "CCC"], []⟩).1.status = "failed" ∧
    (trigger_analysis dbPipeline 0 "2026-01-18"
      ⟨[], ["AAA", "BBB", "CCC"], []⟩).1.analytics = none ∧
    (trigger_analysis dbPipeline 0 "2026-01-18"
      ⟨[], ["AAA", "BBB", "CCC"], []⟩).1.persistence = none ∧
    (trigger_analysis dbPipeline 0 "2026-01-18"
      ⟨[], ["AAA", "BBB", "CCC"], []⟩).2 = dbPipeline ∧
    (trigger_analysis dbPipeline 0 "2026-01-18"
      ⟨[], ["AAA", "BBB", "CCC"], []⟩).1.http = 500 :=
  trigger_analysis_no_data dbPipeline 0 "2026-01-18" ⟨[], ["AAA", "BBB", "CCC"], []⟩ rfl

theorem mergeMarkets_all_some (data : List (String × MarketData)) :
    ∀ (l : List (String × MarketData)),
      ∃ merged, mergeMarkets data (l.map fun p => (p.1, some (calculate_market_analytics p.2))) =
        .ok merged := by
  intro l
  induction l with
  | nil => exact ⟨[], rfl⟩
  | cons p ps ih =>
    obtain ⟨merged, hm⟩ := ih
    rcases p with ⟨market_id, md⟩
    cases hl : data.lookup market_id with
    | none =>
      refine ⟨(market_id, some (calculate_market_analytics md)) :: merged, ?_⟩
      show mergeMarkets data ((market_id, some (calculate_market_analytics md)) ::
        ps.map fun p => (p.1, some (calculate_market_analytics p.2))) = _
      unfold mergeMarkets
      rw [hl, hm]
      rfl
    | some od =>
      refine ⟨(market_id, some { calculate_market_analytics md with
        close_price := some od.close_price
        volume := some od.volume
        change_pct := some od.change_pct }) :: merged, ?_⟩
      show mergeMarkets data ((market_id, some (calculate_market_analytics md)) ::
        ps.map fun p => (p.1, some (calculate_market_analytics p.2))) = _
      unfold mergeMarkets
      rw [hl, hm]
      rfl

/-- C1 (amended): the overall status of a pipeline run is the persistence
report's status, which is derived from the persist counters alone —
`'failed'` when nothing at all was persisted, else `'partial'` when some
persist item failed, else `'success'`; fetch failures do not enter the
derivation.  (An empty fetch still short-circuits to `'failed'`.)  The
claim's `'partial'` for a run with one failed fetch and clean persistence
fails on the code — see the counterexample. -/
theorem trigger_analysis_status_derivation (db : Db) (today : ℤ) (dateStr : String)
    (ar : AdapterResults) :
    (ar.data = [] →
      (trigger_analysis db today dateStr ar).1.status = "failed" ∧
      (trigger_analysis db today dateStr ar).1.persistence = none) ∧
    (ar.data ≠ [] →
      ∃ pr, (trigger_analysis db today dateStr ar).1.persistence = some pr ∧
        (trigger_analysis db today dateStr ar).1.status = pr.status ∧
        pr.status = (if pr.markets_saved = 0 ∧ pr.correlations_saved = 0 then "failed"
          else if 0 < pr.markets_failed ∨ 0 < pr.correlations_failed then "partial"
          else "success")) := by
  constructor
  · intro hdata
    have h := trigger_analysis_no_data db today dateStr ar hdata
    exact ⟨h.1, h.2.2.1⟩
  · intro hne
    have hempty : ar.data.isEmpty = false := by
      cases hd : ar.data with
      | nil => exact absurd hd hne
      | cons x xs => rfl
    have hmarkets : (process_market_batch dateStr ar.data).markets =
        ar.data.map fun p => (p.1, some (calculate_market_analytics p.2)) := rfl
    obtain ⟨merged, hmerged⟩ := mergeMarkets_all_some ar.data ar.data
    unfold trigger_analysis
    rw [hempty]
    dsimp only
    rw [hmarkets, hmerged]
    dsimp only
    refine ⟨(save_batch_analytics db today
      { process_market_batch dateStr ar.data with markets := merged }).2, rfl, ?_, ?_⟩
    · by_cases hs : (save_batch_analytics db today
          { process_market_batch dateStr ar.data with markets := merged }).2.status = "success"
      · simp [hs]
      · simp [hs]
    · exact save_batch_analytics_status db today _

set_option maxRecDepth 100000 in
/-- C1 counterexample: a run in which 1 of 3 market fetches fails and both
remaining markets are analyzed and persisted successfully (2 saved, 0
failed, no correlation items) has overall status `'success'`, not the
`'partial'` the claim requires. -/
theorem trigger_analysis_partial_counterexample :
    (trigger_analysis dbPipeline 0 "2026-01-18" arPipeline).1.status = "success" ∧
    (trigger_analysis dbPipeline 0 "2026-01-18" arPipeline).1.status ≠ "partial" ∧
    ((trigger_analysis dbPipeline 0 "2026-01-18" arPipeline).1.data_fetch =
      some ⟨2, 1, ["AAA", "BBB"], ["CCC"]⟩) ∧
    ((trigger_analysis dbPipeline 0 "2026-01-18" arPipeline).1.analytics =
      some ⟨2, 0⟩) ∧
    ((trigger_analysis dbPipeline 0 "2026-01-18" arPipeline).1.persistence.map
        fun pr => (pr.status, pr.markets_saved, pr.markets_failed,
          pr.correlations_saved, pr.correlations_failed)) =
      some ("success", 2, 0, 0, 0) := by
  refine ⟨?_, ?_, ?_, ?_, ?_⟩
  · with_unfolding_all rfl
  · with_unfolding_all decide
  · with_unfolding_all rfl
  · with_unfolding_all rfl
  · with_unfolding_all rfl

set_option maxRecDepth 100000 in
/-- C1 witness: the status-derivation theorem applied to the concrete
1-of-3-fetch-failure run. -/
theorem trigger_analysis_status_derivation_witness :
    ∃ pr, (trigger_analysis dbPipeline 0 "2026-01-18" arPipeline).1.persistence = some pr ∧
      (trigger_analysis dbPipeline 0 "2026-01-18" arPipeline).1.status = pr.status ∧
      pr.status = (if pr.markets_saved = 0 ∧ pr.correlations_saved = 0 then "failed"
        else if 0 < pr.markets_failed ∨ 0 < pr.correlations_failed then "partial"
        else "success") :=
  (trigger_analysis_status_derivation dbPipeline 0 "2026-01-18" arPipeline).2
    (by with_unfolding_all decide)

end GlobeMarketMind
